import Mathlib

/-! Session cleaner and service-time limiter.

A shallow embedding of `5-session-cleaner/main.go` (the `SessionManager`, its
`CreateSession` / `GetSessionData` / `UpdateSessionData` operations and the
`CleanSession` watcher goroutine) and of `3-limit-service-time/main.go`
(`HandleRequest`).

Modelling conventions.

* Time is a natural number of nanoseconds, the unit of Go's `time.Duration`.
* `m.sessions` is a Go `map[string]Session`; it is an association list read
  with `mapGet`, written with `mapSet` and deleted from with `mapDelete`.
  A `Session` is a struct *value*: reading `m.sessions[id]` yields a copy.
* Every `context.WithCancel` call allocates a fresh cancellation signal.  The
  signals are the positions of the list `World.ctxs`; the entry is `true` once
  the paired `cancelFunc` was called.  A `Session` keeps the position of its
  `ctx` and of the signal its `cancelFunc` raises.
* Goroutines started with `go m.CleanSession(id, session)` are the entries of
  `World.watchers`.  Code run while holding `m.sync` is one atomic step; the
  watcher's two `select` statements run without the lock and form a step of
  their own, distinct from the later `removeSession` step.
-/

namespace SessionCleaner

/-- One second in nanoseconds (`time.Second`). -/
def Second : Nat := 1000000000

/-- The constant `sessionTTL = 5 * time.Second`. -/
def sessionTTL : Nat := 5 * Second

/-- The payload `map[string]interface{}` of a session. -/
abbrev SessionData := List (String × String)

/-- Go `error` values met by the session manager. -/
inductive GoError where
  | ErrSessionNotFound
  | other (msg : String)
deriving DecidableEq, Repr

/-- The struct `Session`. -/
structure Session where
  Data : SessionData
  ExpirationTime : Nat
  ctx : Nat
  cancelFunc : Nat
deriving DecidableEq, Repr

/-- Map read `v, ok := m[k]`; `none` stands for `ok = false`. -/
def mapGet (k : String) : List (String × Session) → Option Session
  | [] => none
  | (k', v) :: rest => if k' = k then some v else mapGet k rest

/-- Builtin `delete(m, k)`. -/
def mapDelete (k : String) (l : List (String × Session)) : List (String × Session) :=
  l.filter (fun p => p.1 != k)

/-- Map write `m[k] = v`. -/
def mapSet (k : String) (v : Session) (l : List (String × Session)) :
    List (String × Session) :=
  (k, v) :: mapDelete k l

/-- The struct `SessionManager` (the mutex is the atomicity of the steps). -/
structure SessionManager where
  sessions : List (String × Session)
deriving DecidableEq, Repr

/-- `NewSessionManager`. -/
def NewSessionManager : SessionManager :=
  { sessions := [] }

/-- Where a `CleanSession` goroutine stands: blocked in the outer `select`,
past the inner `select` on its way into `removeSession`, or returned. -/
inductive Phase where
  | waiting
  | removing
  | finished
deriving DecidableEq, Repr

/-- A goroutine `go m.CleanSession(sessionID, session)` with its arguments. -/
structure Watcher where
  sessionID : String
  session : Session
  phase : Phase
deriving DecidableEq, Repr

/-- The manager together with the runtime state its code touches. -/
structure World where
  m : SessionManager
  ctxs : List Bool
  watchers : List Watcher
deriving DecidableEq, Repr

/-- The state right after `NewSessionManager()`. -/
def World.init : World :=
  { m := NewSessionManager, ctxs := [], watchers := [] }

/-- Whether `<-ctx.Done()` is ready for the signal `c`. -/
def Done (ctxs : List Bool) (c : Nat) : Bool :=
  ctxs.getD c false

/-- Calling a `cancelFunc`: raises the signal, a no-op when already raised. -/
def cancel (ctxs : List Bool) (c : Nat) : List Bool :=
  ctxs.set c true

/-- `CreateSession`, given the outcome of `MakeSessionID()` and `time.Now()`. -/
def CreateSession (gen : Except GoError String) (now : Nat) (w : World) :
    (String × Option GoError) × World :=
  match gen with
  | .error err => (("", some err), w)
  | .ok sessionID =>
    let c := w.ctxs.length
    let session : Session :=
      { Data := [], ExpirationTime := now + sessionTTL, ctx := c, cancelFunc := c }
    ((sessionID, none),
      { m := { sessions := mapSet sessionID session w.m.sessions },
        ctxs := w.ctxs ++ [false],
        watchers := w.watchers ++
          [{ sessionID := sessionID, session := session, phase := Phase.waiting }] })

/-- `removeSession`. -/
def removeSession (sessionID : String) (m : SessionManager) : SessionManager :=
  { sessions := mapDelete sessionID m.sessions }

/-- `GetSessionData`; the data `none` is Go's `nil` map. -/
def GetSessionData (sessionID : String) (w : World) :
    Option SessionData × Option GoError :=
  match mapGet sessionID w.m.sessions with
  | none => (none, some GoError.ErrSessionNotFound)
  | some session => (some session.Data, none)

/-- `UpdateSessionData`.  The local copy `session` gets the new expiry and
context and is handed to the new goroutine; the function has no statement
that stores it, or `data`, into `m.sessions`. -/
def UpdateSessionData (sessionID : String) (_data : SessionData) (now : Nat) (w : World) :
    Option GoError × World :=
  match mapGet sessionID w.m.sessions with
  | none => (some GoError.ErrSessionNotFound, w)
  | some session =>
    let ctxs1 := cancel w.ctxs session.cancelFunc
    let c := ctxs1.length
    let session1 : Session :=
      { session with ExpirationTime := now + sessionTTL, ctx := c, cancelFunc := c }
    (none,
      { m := w.m,
        ctxs := ctxs1 ++ [false],
        watchers := w.watchers ++
          [{ sessionID := sessionID, session := session1, phase := Phase.waiting }] })

/-- Which case the outer `select` of `CleanSession` took. -/
inductive Wake where
  | timer
  | ctxDone
deriving DecidableEq, Repr

/-- The body of `CleanSession` run without interruption from the moment the
outer `select` wakes: the manager it leaves behind. -/
def CleanSession (wake : Wake) (sessionID : String) (session : Session) (w : World) :
    SessionManager :=
  match wake with
  | .ctxDone => w.m
  | .timer => if Done w.ctxs session.ctx then w.m else removeSession sessionID w.m

/-- Replaces the phase of watcher `i`. -/
def setPhase (i : Nat) (p : Phase) (ws : List Watcher) : List Watcher :=
  ws.modify (fun x => { x with phase := p }) i

/-- The atomic steps of an execution. -/
inductive Event where
  | create (gen : Except GoError String)
  | update (sessionID : String) (data : SessionData)
  | wakeDone (i : Nat)
  | wakeTimer (i : Nat)
  | remove (i : Nat)

/-- One step at clock value `now`; `none` when the step cannot be taken.
`wakeDone i`: watcher `i` leaves the outer `select` through `<-ctx.Done()`.
`wakeTimer i`: its timer case is taken, which needs `now` to have reached
`session.ExpirationTime`, and the inner `select` runs.
`remove i`: it runs `m.removeSession(sessionID)`. -/
def step (now : Nat) (e : Event) (w : World) : Option World :=
  match e with
  | .create gen => some (CreateSession gen now w).2
  | .update sessionID data => some (UpdateSessionData sessionID data now w).2
  | .wakeDone i =>
    match w.watchers.get? i with
    | none => none
    | some x =>
      if x.phase = Phase.waiting ∧ Done w.ctxs x.session.ctx = true then
        some { w with watchers := setPhase i Phase.finished w.watchers }
      else none
  | .wakeTimer i =>
    match w.watchers.get? i with
    | none => none
    | some x =>
      if x.phase = Phase.waiting ∧ x.session.ExpirationTime ≤ now then
        if Done w.ctxs x.session.ctx then
          some { w with watchers := setPhase i Phase.finished w.watchers }
        else
          some { w with watchers := setPhase i Phase.removing w.watchers }
      else none
  | .remove i =>
    match w.watchers.get? i with
    | none => none
    | some x =>
      if x.phase = Phase.removing then
        some { w with m := removeSession x.sessionID w.m,
                      watchers := setPhase i Phase.finished w.watchers }
      else none

/-- Runs a timestamped sequence of steps from clock value `clock`; the
timestamps may not decrease. -/
def run (clock : Nat) (w : World) : List (Nat × Event) → Option World
  | [] => some w
  | (t, e) :: rest =>
    if clock ≤ t then
      match step t e w with
      | none => none
      | some w1 => run t w1 rest
    else none

/-- The payload written by `main`: `data["website"] = "longhoang.de"`. -/
def demoData : SessionData := [("website", "longhoang.de")]

/-- The state after `CreateSession` returned the ID "s" at time 0 on a new
manager. -/
def demoCreated : World :=
  (CreateSession (.ok "s") 0 World.init).2

/-- A watcher that is neither cancelled nor terminated. -/
def Watcher.live (ctxs : List Bool) (x : Watcher) : Bool :=
  x.phase != Phase.finished && !Done ctxs x.session.ctx

/-- The live watchers of a session ID. -/
def liveWatchers (sessionID : String) (w : World) : List Watcher :=
  w.watchers.filter (fun x => x.sessionID == sessionID && x.live w.ctxs)

end SessionCleaner

namespace LimitServiceTime

/-- The struct `User`; `TimeUsed` is an `atomic.Uint64`. -/
structure User where
  ID : Int
  IsPremium : Bool
  TimeUsed : Nat
deriving DecidableEq, Repr

/-- The quotient of `a` by `b` rounded to the nearest integer, a tie going to
the even neighbour: the IEEE 754 default rounding of a significand. -/
def roundHalfEven (a b : Nat) : Nat :=
  if 2 * (a % b) < b then a / b
  else if b < 2 * (a % b) then a / b + 1
  else if a / b % 2 = 0 then a / b
  else a / b + 1

/-- The binary exponent at which `a / b` is written with a 53-bit
significand: the first `k`, counted from the second argument, with
`2 ^ 52 ≤ a / b * 2 ^ k`, or the last one tried. -/
def scaleOf (a b : Nat) : Nat → Nat → Nat
  | 0, k => k
  | fuel + 1, k => if 2 ^ 52 * b ≤ a * 2 ^ k then k else scaleOf a b fuel (k + 1)

/-- A non-negative `float64`, the number `num / 2 ^ scale`. -/
structure F64 where
  num : Nat
  scale : Nat
deriving DecidableEq, Repr

/-- The `float64` nearest to the rational `a / b`, for `0 ≤ a / b < 2 ^ 53`:
the significand is `a / b * 2 ^ scale` rounded with `roundHalfEven`, and the
scale stops at 1074, the exponent of the subnormal numbers. -/
def F64.round (a b : Nat) : F64 :=
  if a = 0 then { num := 0, scale := 0 }
  else
    { num := roundHalfEven (a * 2 ^ scaleOf a b 1074 0) b, scale := scaleOf a b 1074 0 }

/-- The conversion `float64(n)` of an integer (exact below `2 ^ 53`). -/
def F64.ofNat (n : Nat) : F64 :=
  F64.round n 1

/-- The `float64` division `x / y`. -/
def F64.div (x y : F64) : F64 :=
  F64.round (x.num * 2 ^ y.scale) (y.num * 2 ^ x.scale)

/-- The `float64` addition `x + y`. -/
def F64.add (x y : F64) : F64 :=
  F64.round (x.num * 2 ^ y.scale + y.num * 2 ^ x.scale) (2 ^ (x.scale + y.scale))

/-- The conversion `uint64(x)`, which drops the fraction. -/
def F64.toUint64 (x : F64) : Nat :=
  x.num / 2 ^ x.scale

/-- The method `time.Duration.Seconds` of the standard library on a duration
of `d` nanoseconds: `sec := d / Second; nsec := d % Second;
return float64(sec) + float64(nsec)/1e9`.  A `time.Duration` is an `int64`,
so `d < 2 ^ 63` and every intermediate value is below `2 ^ 53`. -/
def Seconds (d : Nat) : F64 :=
  F64.add (F64.ofNat (d / 1000000000))
    (F64.div (F64.ofNat (d % 1000000000)) (F64.ofNat 1000000000))

/-- The expression `uint64(time.Since(start).Seconds())` for an elapsed time
of `d` nanoseconds. -/
def wholeSeconds (d : Nat) : Nat :=
  (Seconds d).toUint64

/-- `HandleRequest` for a `process` whose run takes `elapsed` nanoseconds
(`time.Since(start)`).  The goroutine adds the whole seconds to `u.TimeUsed`
and sends on `timeout` when the total is above 10, on `done` otherwise; a
premium user gets `true` without waiting for either. -/
def HandleRequest (elapsed : Nat) (u : User) : Bool × User :=
  let used := (u.TimeUsed + wholeSeconds elapsed) % 2 ^ 64
  let u1 : User := { u with TimeUsed := used }
  if u.IsPremium then (true, u1)
  else if used > 10 then (false, u1)
  else (true, u1)

/-- The user after a sequence of requests handled one after another. -/
def userAfter (u : User) : List Nat → User
  | [] => u
  | d :: rest => userAfter (HandleRequest d u).2 rest

end LimitServiceTime

namespace SessionCleaner

/-! ## The map primitives -/

theorem mapGet_mapDelete_self (k : String) (l : List (String × Session)) :
    mapGet k (mapDelete k l) = none := by
  induction l with
  | nil => rfl
  | cons p rest ih =>
    by_cases h : p.1 = k
    · simpa [mapDelete, List.filter_cons, h] using ih
    · simpa [mapDelete, List.filter_cons, h, mapGet] using ih

theorem mapGet_mapDelete_ne (k k' : String) (l : List (String × Session)) (hk : k' ≠ k) :
    mapGet k' (mapDelete k l) = mapGet k' l := by
  induction l with
  | nil => rfl
  | cons p rest ih =>
    obtain ⟨a, v⟩ := p
    simp only [mapDelete] at ih
    by_cases h : a = k
    · subst h
      have h' : ¬ a = k' := fun e => hk e.symm
      simpa [mapDelete, List.filter_cons, mapGet, h'] using ih
    · by_cases h2 : a = k'
      · subst h2
        simp [mapDelete, List.filter_cons, h, mapGet]
      · simpa [mapDelete, List.filter_cons, h, mapGet, h2] using ih

theorem mapDelete_of_absent (k : String) (l : List (String × Session))
    (h : mapGet k l = none) : mapDelete k l = l := by
  induction l with
  | nil => rfl
  | cons p rest ih =>
    by_cases hp : p.1 = k
    · simp [mapGet, hp] at h
    · simp only [mapGet, hp, if_false] at h
      have := ih h
      simp only [mapDelete] at this
      simp [mapDelete, List.filter_cons, hp, this]

theorem mapDelete_idem (k : String) (l : List (String × Session)) :
    mapDelete k (mapDelete k l) = mapDelete k l :=
  mapDelete_of_absent k _ (mapGet_mapDelete_self k l)

theorem mapGet_mapSet_self (k : String) (v : Session) (l : List (String × Session)) :
    mapGet k (mapSet k v l) = some v := by
  simp [mapSet, mapGet]

theorem mapGet_mapSet_ne (k k' : String) (v : Session) (l : List (String × Session))
    (hk : k' ≠ k) : mapGet k' (mapSet k v l) = mapGet k' l := by
  have h' : ¬ k = k' := fun e => hk e.symm
  simp [mapSet, mapGet, h', mapGet_mapDelete_ne k k' l hk]

/-- A freshly allocated cancellation signal is not raised. -/
theorem Done_fresh (ctxs : List Bool) : Done (ctxs ++ [false]) ctxs.length = false := by
  simp [Done]

/-- An `UpdateSessionData` call never writes to `m.sessions`. -/
theorem UpdateSessionData_sessions (sessionID : String) (data : SessionData) (now : Nat)
    (w : World) : (UpdateSessionData sessionID data now w).2.m = w.m := by
  unfold UpdateSessionData
  cases mapGet sessionID w.m.sessions <;> rfl

/-! ## Lookup failures -/

/-- C3: `GetSessionData` and `UpdateSessionData` return `ErrSessionNotFound`
exactly when the ID is not in the store; on that failure `GetSessionData`
returns nil data and `UpdateSessionData` leaves the store, the cancellation
signals and the set of watchers as they were. -/
theorem notFound_iff_absent (w : World) (sessionID : String) (data : SessionData)
    (now : Nat) :
    ((GetSessionData sessionID w).2 = some GoError.ErrSessionNotFound ↔
        mapGet sessionID w.m.sessions = none) ∧
    ((UpdateSessionData sessionID data now w).1 = some GoError.ErrSessionNotFound ↔
        mapGet sessionID w.m.sessions = none) ∧
    (mapGet sessionID w.m.sessions = none →
        (GetSessionData sessionID w).1 = none ∧
        (UpdateSessionData sessionID data now w).2.m = w.m ∧
        (UpdateSessionData sessionID data now w).2.ctxs = w.ctxs ∧
        (UpdateSessionData sessionID data now w).2.watchers = w.watchers) := by
  unfold GetSessionData UpdateSessionData
  cases h : mapGet sessionID w.m.sessions <;> simp

/-- C3 at the empty store and at a store holding another session. -/
theorem notFound_iff_absent_witness :
    (GetSessionData "ghost" (CreateSession (.ok "s") 0 World.init).2).1 = none ∧
    (UpdateSessionData "ghost" demoData 7 (CreateSession (.ok "s") 0 World.init).2).2.watchers
      = (CreateSession (.ok "s") 0 World.init).2.watchers :=
  have h := (notFound_iff_absent (CreateSession (.ok "s") 0 World.init).2 "ghost" demoData 7).2.2
    (by decide)
  ⟨h.1, h.2.2.2⟩

/-! ## `CreateSession` -/

/-- C6: when `MakeSessionID` succeeds with an ID not yet in the store,
`CreateSession` returns that ID and a nil error; afterwards the store maps
the ID to a session with empty data and expiry `now + sessionTTL`,
`GetSessionData` on it yields the empty mapping, exactly one watcher was
spawned (with that session, waiting, its signal not raised), the signals
already allocated are as before, and every other entry is unchanged. -/
theorem createSession_ok (w : World) (now : Nat) (sessionID : String)
    (_hfresh : mapGet sessionID w.m.sessions = none) :
    (CreateSession (.ok sessionID) now w).1 = (sessionID, none) ∧
    mapGet sessionID (CreateSession (.ok sessionID) now w).2.m.sessions =
      some { Data := [], ExpirationTime := now + sessionTTL,
             ctx := w.ctxs.length, cancelFunc := w.ctxs.length } ∧
    GetSessionData sessionID (CreateSession (.ok sessionID) now w).2 = (some [], none) ∧
    (CreateSession (.ok sessionID) now w).2.watchers =
      w.watchers ++
        [{ sessionID := sessionID,
           session := { Data := [], ExpirationTime := now + sessionTTL,
                        ctx := w.ctxs.length, cancelFunc := w.ctxs.length },
           phase := Phase.waiting }] ∧
    Done (CreateSession (.ok sessionID) now w).2.ctxs w.ctxs.length = false ∧
    (∀ c, c < w.ctxs.length →
      Done (CreateSession (.ok sessionID) now w).2.ctxs c = Done w.ctxs c) ∧
    (∀ k, k ≠ sessionID →
      mapGet k (CreateSession (.ok sessionID) now w).2.m.sessions = mapGet k w.m.sessions) := by
  refine ⟨rfl, ?_, ?_, rfl, ?_, ?_, ?_⟩
  · simp [CreateSession, mapGet_mapSet_self]
  · simp [GetSessionData, CreateSession, mapGet_mapSet_self]
  · exact Done_fresh w.ctxs
  · intro c hc
    simp [CreateSession, Done, List.getD_eq_getElem?_getD, List.getElem?_append_left hc]
  · intro k hk
    simp [CreateSession, mapGet_mapSet_ne _ _ _ _ hk]

/-- C6 at the empty store, time 0 and the ID "s". -/
theorem createSession_ok_witness :
    (CreateSession (.ok "s") 0 World.init).1 = ("s", none) ∧
    GetSessionData "s" (CreateSession (.ok "s") 0 World.init).2 = (some [], none) :=
  have h := createSession_ok World.init 0 "s" (by decide)
  ⟨h.1, h.2.2.1⟩

/-- C7: when `MakeSessionID` fails with `err`, `CreateSession` returns the
empty string and `err`, and the store, the signals and the watchers are
exactly as before. -/
theorem createSession_error (w : World) (now : Nat) (err : GoError) :
    CreateSession (.error err) now w = (("", some err), w) :=
  rfl

/-! ## The watcher -/

/-- C10: a watcher that finds its signal raised, woken by the signal or by
the timer, leaves the store unchanged; a watcher whose timer fired with the
signal not raised leaves a store without the entry of its session ID and
with every other entry unchanged, which is the old store when the ID was
already absent; removing twice equals removing once. -/
theorem cleanSession_frame (w : World) (sessionID : String) (session : Session)
    (wake : Wake) :
    ((wake = Wake.ctxDone ∨ Done w.ctxs session.ctx = true) →
        CleanSession wake sessionID session w = w.m) ∧
    ((wake = Wake.timer ∧ Done w.ctxs session.ctx = false) →
        CleanSession wake sessionID session w = removeSession sessionID w.m ∧
        mapGet sessionID (CleanSession wake sessionID session w).sessions = none ∧
        (∀ k, k ≠ sessionID →
          mapGet k (CleanSession wake sessionID session w).sessions =
            mapGet k w.m.sessions) ∧
        (mapGet sessionID w.m.sessions = none →
          CleanSession wake sessionID session w = w.m)) ∧
    removeSession sessionID (removeSession sessionID w.m) = removeSession sessionID w.m := by
  refine ⟨?_, ?_, ?_⟩
  · rintro (h | h)
    · subst h; rfl
    · cases wake
      · simp [CleanSession, h]
      · rfl
  · rintro ⟨h1, h2⟩
    subst h1
    have hc : CleanSession Wake.timer sessionID session w = removeSession sessionID w.m := by
      simp [CleanSession, h2]
    rw [hc]
    refine ⟨rfl, mapGet_mapDelete_self _ _, ?_, ?_⟩
    · intro k hk
      exact mapGet_mapDelete_ne _ _ _ hk
    · intro habs
      simp [removeSession, mapDelete_of_absent _ _ habs]
  · simp [removeSession, mapDelete_idem]

/-- C10 at a store with the sessions "s" and "t": the watcher of "s" fires
unsignalled, "s" is gone and "t" is kept. -/
theorem cleanSession_frame_witness :
    mapGet "s" (CleanSession Wake.timer "s"
        { Data := [], ExpirationTime := 5000000000, ctx := 0, cancelFunc := 0 }
        (CreateSession (.ok "t") 1 (CreateSession (.ok "s") 0 World.init).2).2).sessions
      = none ∧
    mapGet "t" (CleanSession Wake.timer "s"
        { Data := [], ExpirationTime := 5000000000, ctx := 0, cancelFunc := 0 }
        (CreateSession (.ok "t") 1 (CreateSession (.ok "s") 0 World.init).2).2).sessions
      = mapGet "t" (CreateSession (.ok "t") 1 (CreateSession (.ok "s") 0 World.init).2).2.m.sessions :=
  have h := (cleanSession_frame
    (CreateSession (.ok "t") 1 (CreateSession (.ok "s") 0 World.init).2).2 "s"
    { Data := [], ExpirationTime := 5000000000, ctx := 0, cancelFunc := 0 } Wake.timer).2.1
    ⟨rfl, by decide⟩
  ⟨h.2.1, h.2.2.1 "t" (by decide)⟩

/-- The two unlocked-then-locked steps of a watcher whose timer fired, taken
back to back, leave the manager that `CleanSession` computes. -/
theorem step_wakeTimer_remove (now i : Nat) (w : World) (x : Watcher)
    (hx : w.watchers.get? i = some x) (hp : x.phase = Phase.waiting)
    (ht : x.session.ExpirationTime ≤ now) (hd : Done w.ctxs x.session.ctx = false) :
    ((step now (.wakeTimer i) w).bind (step now (.remove i))).map World.m =
      some (CleanSession Wake.timer x.sessionID x.session w) := by
  have hx' : w.watchers[i]? = some x := by simpa using hx
  simp [step, hx, hp, ht, hd, CleanSession, setPhase, hx']

/-- A watcher whose timer fired and that finds its signal raised returns
without a `removeSession` step, as `CleanSession` computes. -/
theorem step_wakeTimer_done (now i : Nat) (w : World) (x : Watcher)
    (hx : w.watchers.get? i = some x) (hp : x.phase = Phase.waiting)
    (ht : x.session.ExpirationTime ≤ now) (hd : Done w.ctxs x.session.ctx = true) :
    (step now (.wakeTimer i) w).map World.m =
      some (CleanSession Wake.timer x.sessionID x.session w) := by
  have hx' : w.watchers[i]? = some x := by simpa using hx
  simp [step, hp, ht, hd, CleanSession, hx']

/-! ## `UpdateSessionData` and the store -/

/-- `GetSessionData` answers the same before and after an update. -/
theorem GetSessionData_update (sessionID k : String) (data : SessionData) (now : Nat)
    (w : World) :
    GetSessionData k (UpdateSessionData sessionID data now w).2 = GetSessionData k w := by
  simp [GetSessionData, UpdateSessionData_sessions]

/-- C1: the run of `main`.  `CreateSession` returns "s",
`UpdateSessionData("s", data)` with `data["website"] = "longhoang.de"`
returns nil, and the `GetSessionData("s")` that follows returns the empty
mapping the session was created with, not `data`. -/
theorem update_keeps_old_data :
    (UpdateSessionData "s" demoData (3 * Second) demoCreated).1 = none ∧
    GetSessionData "s" (UpdateSessionData "s" demoData (3 * Second) demoCreated).2 =
      (some [], none) ∧
    GetSessionData "s" (UpdateSessionData "s" demoData (3 * Second) demoCreated).2 ≠
      (some demoData, none) := by
  decide

/-- C9: after `CreateSession` at time 0 and a successful
`UpdateSessionData` at 3 s, the session held by the store still expires at
`0 + sessionTTL`; only the spawned watcher carries `3 s + sessionTTL`. -/
theorem update_keeps_old_expiry :
    (UpdateSessionData "s" demoData (3 * Second) demoCreated).1 = none ∧
    (mapGet "s" (UpdateSessionData "s" demoData (3 * Second) demoCreated).2.m.sessions).map
      Session.ExpirationTime = some (0 + sessionTTL) ∧
    0 + sessionTTL ≠ 3 * Second + sessionTTL ∧
    ((UpdateSessionData "s" demoData (3 * Second) demoCreated).2.watchers.get? 1).map
      (fun x => x.session.ExpirationTime) = some (3 * Second + sessionTTL) := by
  decide

/-! ## Executions -/

/-- C2: create at 0 s, update at 1 s, update at 2 s.  The second update
calls the `cancelFunc` stored at creation, so the watcher spawned by the
first update (deadline 6 s) stays unsignalled; its timer fires at 6 s and it
removes the session 4 s after the last successful update. -/
theorem removed_before_ttl :
    ∃ w1 w2 w3 w4 w5 : World,
      CreateSession (.ok "s") 0 World.init = (("s", none), w1) ∧
      UpdateSessionData "s" demoData (1 * Second) w1 = (none, w2) ∧
      UpdateSessionData "s" demoData (2 * Second) w2 = (none, w3) ∧
      step (6 * Second) (.wakeTimer 1) w3 = some w4 ∧
      step (6 * Second) (.remove 1) w4 = some w5 ∧
      (mapGet "s" w4.m.sessions).isSome = true ∧
      mapGet "s" w5.m.sessions = none ∧
      6 * Second < 2 * Second + sessionTTL :=
  ⟨_, _, _, _, _, rfl, rfl, rfl, rfl, rfl, by decide, by decide, by decide⟩

/-- C4: create at 0 s.  At 5 s the timer of the first watcher fires and its
inner `select` finds the signal not raised; before it gets the lock in
`removeSession`, `UpdateSessionData` runs, raises that signal and returns
nil; the watcher then deletes the session with its signal raised. -/
theorem deleted_after_successful_update :
    ∃ w1 w2 w3 w4 : World,
      CreateSession (.ok "s") 0 World.init = (("s", none), w1) ∧
      step (5 * Second) (.wakeTimer 0) w1 = some w2 ∧
      UpdateSessionData "s" demoData (5 * Second) w2 = (none, w3) ∧
      Done w3.ctxs 0 = true ∧
      (w3.watchers.get? 0).map (fun x => x.session.ctx) = some 0 ∧
      (mapGet "s" w3.m.sessions).isSome = true ∧
      step (5 * Second) (.remove 0) w3 = some w4 ∧
      mapGet "s" w4.m.sessions = none :=
  ⟨_, _, _, _, rfl, rfl, rfl, by decide, by decide, by decide, rfl, by decide⟩

/-- C5: after create, update, update on one session, the watchers spawned
by the two updates are both neither cancelled nor terminated: two live
watchers for one session ID, in a store of one session. -/
theorem two_live_watchers :
    ∃ w : World,
      run 0 World.init
        [(0, .create (.ok "s")), (1 * Second, .update "s" demoData),
         (2 * Second, .update "s" demoData)] = some w ∧
      (liveWatchers "s" w).length = 2 ∧
      w.m.sessions.length = 1 ∧
      w.watchers.length = 3 :=
  ⟨_, rfl, by decide, by decide, by decide⟩

end SessionCleaner

namespace LimitServiceTime

/-! ## The `float64` arithmetic of `Seconds` -/

/-- A quotient more than a half below `N` rounds below `N`. -/
theorem roundHalfEven_lt (a b N : Nat) (h : 2 * a + b < 2 * (N * b)) :
    roundHalfEven a b < N := by
  have hb : 0 < b := by
    rcases Nat.eq_zero_or_pos b with h0 | h0
    · subst h0; simp at h
    · exact h0
  have hdm : b * (a / b) + a % b = a := Nat.div_add_mod a b
  have hr : a % b < b := Nat.mod_lt a hb
  by_contra hcon
  have hN : N ≤ roundHalfEven a b := Nat.le_of_not_lt hcon
  unfold roundHalfEven at hN
  split_ifs at hN with h1 h2 h3
  · have := Nat.mul_le_mul_left b hN
    rw [Nat.mul_comm b N] at this
    omega
  · have := Nat.mul_le_mul_left b hN
    rw [Nat.mul_comm b N, Nat.mul_add] at this
    omega
  · have := Nat.mul_le_mul_left b hN
    rw [Nat.mul_comm b N] at this
    omega
  · have := Nat.mul_le_mul_left b hN
    rw [Nat.mul_comm b N, Nat.mul_add] at this
    omega

/-- Rounding never goes below the floor of the quotient. -/
theorem div_le_roundHalfEven (a b : Nat) : a / b ≤ roundHalfEven a b := by
  unfold roundHalfEven
  split_ifs <;> omega

/-- An integer rounds to itself. -/
theorem roundHalfEven_one (a : Nat) : roundHalfEven a 1 = a := by
  simp [roundHalfEven, Nat.mod_one]

/-- The search of `scaleOf` ends at a scale that fits or at the last one. -/
theorem scaleOf_spec (a b fuel k : Nat) :
    2 ^ 52 * b ≤ a * 2 ^ scaleOf a b fuel k ∨ scaleOf a b fuel k = k + fuel := by
  induction fuel generalizing k with
  | zero => right; rfl
  | succ n ih =>
    unfold scaleOf
    split_ifs with h
    · left; exact h
    · rcases ih (k + 1) with h1 | h1
      · left; exact h1
      · right; omega


/-- The conversion `float64(n)` keeps the value `n`. -/
theorem ofNat_num (n : Nat) : (F64.ofNat n).num = n * 2 ^ (F64.ofNat n).scale := by
  unfold F64.ofNat F64.round
  split_ifs with h
  · simp [h]
  · simp [roundHalfEven_one]

/-- A quotient at most `1 - 1 / 10 ^ 9` rounds to a `float64` at most
`1 - 1 / 2 ^ 30 - 1 / 2 ^ 53`. -/
theorem round_fraction_le (a b : Nat) (hb : 0 < b)
    (h : a * 1000000000 ≤ 999999999 * b) :
    (F64.round a b).num * 2 ^ 53 ≤ (2 ^ 53 - 2 ^ 23 - 1) * 2 ^ (F64.round a b).scale := by
  unfold F64.round
  split_ifs with h0
  · simp
  · simp only
    have hab : a < b := by omega
    have hapos : 0 < a := Nat.pos_of_ne_zero h0
    obtain ⟨j, hj⟩ : ∃ j, scaleOf a b 1074 0 = 53 + j := by
      rcases scaleOf_spec a b 1074 0 with hs | hs
      · have hlt : 2 ^ 52 * b < 2 ^ scaleOf a b 1074 0 * b := by
          calc 2 ^ 52 * b ≤ a * 2 ^ scaleOf a b 1074 0 := hs
            _ < b * 2 ^ scaleOf a b 1074 0 :=
              Nat.mul_lt_mul_of_pos_right hab (Nat.two_pow_pos _)
            _ = 2 ^ scaleOf a b 1074 0 * b := Nat.mul_comm _ _
        have hlt2 : 2 ^ 52 < 2 ^ scaleOf a b 1074 0 := Nat.lt_of_mul_lt_mul_right hlt
        have hk : 52 < scaleOf a b 1074 0 := (Nat.pow_lt_pow_iff_right (by norm_num)).mp hlt2
        exact ⟨scaleOf a b 1074 0 - 53, by omega⟩
      · exact ⟨1021, by omega⟩
    rw [hj]
    have hlt : roundHalfEven (a * 2 ^ (53 + j)) b < (2 ^ 53 - 2 ^ 23 - 1) * 2 ^ j + 1 := by
      apply roundHalfEven_lt
      have hp : 0 < 2 ^ j := Nat.two_pow_pos j
      have h1 : a * 1000000000 * 2 ^ j ≤ 999999999 * b * 2 ^ j := Nat.mul_le_mul_right _ h
      have e1 : a * 2 ^ (53 + j) = 2 ^ 53 * (a * 2 ^ j) := by rw [pow_add]; ring
      have e2 : a * 1000000000 * 2 ^ j = 1000000000 * (a * 2 ^ j) := by ring
      have e3 : 999999999 * b * 2 ^ j = 999999999 * (b * 2 ^ j) := by ring
      have e4 : ((2 ^ 53 - 2 ^ 23 - 1) * 2 ^ j + 1) * b = (2 ^ 53 - 2 ^ 23 - 1) * (b * 2 ^ j) + b := by
        ring
      rw [e1, e4]
      rw [e2, e3] at h1
      have hbj : b ≤ b * 2 ^ j := Nat.le_mul_of_pos_right b hp
      generalize a * 2 ^ j = A at *
      generalize b * 2 ^ j = B at *
      norm_num at *
      omega
    have hle : roundHalfEven (a * 2 ^ (53 + j)) b ≤ (2 ^ 53 - 2 ^ 23 - 1) * 2 ^ j := by omega
    calc roundHalfEven (a * 2 ^ (53 + j)) b * 2 ^ 53
        ≤ (2 ^ 53 - 2 ^ 23 - 1) * 2 ^ j * 2 ^ 53 := Nat.mul_le_mul_right _ hle
      _ = (2 ^ 53 - 2 ^ 23 - 1) * 2 ^ (53 + j) := by rw [pow_add]; ring


/-- The quotient `float64(nsec)/1e9` of a nanosecond rest stays at most
`1 - 1 / 2 ^ 30 - 1 / 2 ^ 53`. -/
theorem div_fraction_le (n : Nat) (hn : n < 1000000000) :
    (F64.div (F64.ofNat n) (F64.ofNat 1000000000)).num * 2 ^ 53 ≤
      (2 ^ 53 - 2 ^ 23 - 1) *
        2 ^ (F64.div (F64.ofNat n) (F64.ofNat 1000000000)).scale := by
  unfold F64.div
  rw [ofNat_num n, ofNat_num 1000000000]
  have h1 : 0 < 2 ^ (F64.ofNat n).scale := Nat.two_pow_pos _
  have h2 : 0 < 2 ^ (F64.ofNat 1000000000).scale := Nat.two_pow_pos _
  apply round_fraction_le
  · positivity
  · have e1 : n * 2 ^ (F64.ofNat n).scale * 2 ^ (F64.ofNat 1000000000).scale * 1000000000 =
        (n * 1000000000) * (2 ^ (F64.ofNat n).scale * 2 ^ (F64.ofNat 1000000000).scale) := by
      ring
    have e2 : 999999999 *
        (1000000000 * 2 ^ (F64.ofNat 1000000000).scale * 2 ^ (F64.ofNat n).scale) =
        (999999999 * 1000000000) *
          (2 ^ (F64.ofNat n).scale * 2 ^ (F64.ofNat 1000000000).scale) := by
      ring
    rw [e1, e2]
    exact Nat.mul_le_mul_right _ (by omega)

/-- The `float64` sum of a whole number below `2 ^ 24` and a fraction at most
`1 - 1 / 2 ^ 30 - 1 / 2 ^ 53` converts back to the whole number. -/
theorem add_toUint64 (sec : Nat) (x y : F64) (hsec : sec < 2 ^ 24)
    (hx : x.num = sec * 2 ^ x.scale)
    (hy : y.num * 2 ^ 53 ≤ (2 ^ 53 - 2 ^ 23 - 1) * 2 ^ y.scale) :
    (F64.add x y).toUint64 = sec := by
  have hpx : 0 < 2 ^ x.scale := Nat.two_pow_pos _
  have hpy : 0 < 2 ^ y.scale := Nat.two_pow_pos _
  obtain ⟨a, ha⟩ : ∃ a, a = x.num * 2 ^ y.scale + y.num * 2 ^ x.scale := ⟨_, rfl⟩
  obtain ⟨b, hb⟩ : ∃ b, b = 2 ^ (x.scale + y.scale) := ⟨_, rfl⟩
  have hbpos : 0 < b := by rw [hb]; exact Nat.two_pow_pos _
  have hb' : b = 2 ^ x.scale * 2 ^ y.scale := by rw [hb, pow_add]
  have hxb : x.num * 2 ^ y.scale = sec * b := by rw [hx, hb']; ring
  have hY : y.num * 2 ^ x.scale * 2 ^ 53 ≤ (2 ^ 53 - 2 ^ 23 - 1) * b := by
    calc y.num * 2 ^ x.scale * 2 ^ 53 = y.num * 2 ^ 53 * 2 ^ x.scale := by ring
      _ ≤ (2 ^ 53 - 2 ^ 23 - 1) * 2 ^ y.scale * 2 ^ x.scale := Nat.mul_le_mul_right _ hy
      _ = (2 ^ 53 - 2 ^ 23 - 1) * b := by rw [hb']; ring
  unfold F64.add F64.toUint64 F64.round
  rw [← ha, ← hb]
  split_ifs with h0
  · simp only [pow_zero, Nat.div_one]
    have : sec * b = 0 := by omega
    rcases Nat.mul_eq_zero.mp this with h | h
    · exact h.symm
    · omega
  · simp only
    obtain ⟨K, hK⟩ : ∃ K, K = scaleOf a b 1074 0 := ⟨_, rfl⟩
    rw [← hK]
    have hP : 0 < 2 ^ K := Nat.two_pow_pos _
    have halt : a * 2 ^ 53 < (sec + 1) * b * 2 ^ 53 := by
      have : (sec + 1) * b * 2 ^ 53 = sec * b * 2 ^ 53 + b * 2 ^ 53 := by ring
      have e : a * 2 ^ 53 = sec * b * 2 ^ 53 + y.num * 2 ^ x.scale * 2 ^ 53 := by
        rw [ha, hxb]; ring
      rw [this, e]
      norm_num at hY ⊢
      omega
    have hab : a < 2 ^ 24 * b := by
      have h1 : a < (sec + 1) * b := Nat.lt_of_mul_lt_mul_right halt
      have h2 : (sec + 1) * b ≤ 2 ^ 24 * b := Nat.mul_le_mul_right _ (by omega)
      omega
    have hK29 : 29 ≤ K := by
      rcases scaleOf_spec a b 1074 0 with hs | hs
      · rw [← hK] at hs
        have hlt : 2 ^ 52 * b < 2 ^ 24 * 2 ^ K * b := by
          calc 2 ^ 52 * b ≤ a * 2 ^ K := hs
            _ < 2 ^ 24 * b * 2 ^ K := Nat.mul_lt_mul_of_pos_right hab hP
            _ = 2 ^ 24 * 2 ^ K * b := by ring
        have hlt2 : 2 ^ 52 < 2 ^ 24 * 2 ^ K := Nat.lt_of_mul_lt_mul_right hlt
        rw [← pow_add] at hlt2
        have := (Nat.pow_lt_pow_iff_right (by norm_num : 1 < 2)).mp hlt2
        omega
      · omega
    obtain ⟨j, hj⟩ : ∃ j, K = 29 + j := ⟨K - 29, by omega⟩
    have hlo : sec * 2 ^ K ≤ roundHalfEven (a * 2 ^ K) b := by
      refine le_trans ?_ (div_le_roundHalfEven _ _)
      rw [Nat.le_div_iff_mul_le hbpos]
      calc sec * 2 ^ K * b = sec * b * 2 ^ K := by ring
        _ ≤ a * 2 ^ K := Nat.mul_le_mul_right _ (by omega)
    have hhi : roundHalfEven (a * 2 ^ K) b < (sec + 1) * 2 ^ K := by
      apply roundHalfEven_lt
      have hj' : 0 < 2 ^ j := Nat.two_pow_pos _
      have e0 : 2 ^ K = 2 ^ 29 * 2 ^ j := by rw [hj, pow_add]
      have e1 : a * 2 ^ K = 2 ^ 29 * (sec * (b * 2 ^ j)) + 2 ^ 29 * (y.num * 2 ^ x.scale * 2 ^ j) := by
        rw [ha, hxb, e0]; ring
      have e2 : (sec + 1) * 2 ^ K * b = 2 ^ 29 * (sec * (b * 2 ^ j)) + 2 ^ 29 * (b * 2 ^ j) := by
        rw [e0]; ring
      have hYj : y.num * 2 ^ x.scale * 2 ^ j * 2 ^ 53 ≤ (2 ^ 53 - 2 ^ 23 - 1) * (b * 2 ^ j) := by
        calc y.num * 2 ^ x.scale * 2 ^ j * 2 ^ 53 = y.num * 2 ^ x.scale * 2 ^ 53 * 2 ^ j := by ring
          _ ≤ (2 ^ 53 - 2 ^ 23 - 1) * b * 2 ^ j := Nat.mul_le_mul_right _ hY
          _ = (2 ^ 53 - 2 ^ 23 - 1) * (b * 2 ^ j) := by ring
      have hbj : b ≤ b * 2 ^ j := Nat.le_mul_of_pos_right b hj'
      rw [e1, e2]
      generalize sec * (b * 2 ^ j) = S at *
      generalize y.num * 2 ^ x.scale * 2 ^ j = Y at *
      generalize b * 2 ^ j = B at *
      norm_num at hYj ⊢
      omega
    exact Nat.div_eq_of_lt_le hlo hhi

/-- For a run shorter than `2 ^ 24` seconds, `uint64(d.Seconds())` is the
number of whole seconds in `d`. -/
theorem wholeSeconds_eq_div (d : Nat) (h : d < 2 ^ 24 * 1000000000) :
    wholeSeconds d = d / 1000000000 := by
  unfold wholeSeconds Seconds
  apply add_toUint64
  · omega
  · exact ofNat_num _
  · exact div_fraction_le _ (Nat.mod_lt _ (by norm_num))

/-! ## `HandleRequest` -/

theorem HandleRequest_isPremium (d : Nat) (u : User) :
    (HandleRequest d u).2.IsPremium = u.IsPremium := by
  simp only [HandleRequest]
  split_ifs <;> rfl

theorem HandleRequest_timeUsed (d : Nat) (u : User) :
    (HandleRequest d u).2.TimeUsed = (u.TimeUsed + wholeSeconds d) % 2 ^ 64 := by
  simp only [HandleRequest]
  split_ifs <;> rfl

theorem HandleRequest_fst (d : Nat) (u : User) :
    (HandleRequest d u).1 =
      (u.IsPremium || decide ((u.TimeUsed + wholeSeconds d) % 2 ^ 64 ≤ 10)) := by
  simp only [HandleRequest]
  split_ifs with h1 h2
  · simp [h1]
  · simp [h1]
    omega
  · simp [h1]
    omega

theorem userAfter_isPremium (u : User) (ds : List Nat) :
    (userAfter u ds).IsPremium = u.IsPremium := by
  induction ds generalizing u with
  | nil => rfl
  | cons d rest ih => rw [userAfter, ih, HandleRequest_isPremium]

/-- The counter after a run of requests: the whole seconds of every request
added up, modulo `2 ^ 64`. -/
theorem userAfter_timeUsed (u : User) (ds : List Nat) :
    (userAfter u ds).TimeUsed % 2 ^ 64 =
      (u.TimeUsed + (ds.map wholeSeconds).sum) % 2 ^ 64 := by
  induction ds generalizing u with
  | nil => simp [userAfter]
  | cons d rest ih =>
    rw [userAfter, ih, HandleRequest_timeUsed, List.map_cons, List.sum_cons]
    omega

/-- The rounding of `wholeSeconds` at the edges: a run just below one second
counts 0, a run of one second counts 1, 5.5 s counts 5; above `2 ^ 24`
seconds the `float64` sum can reach the next whole second. -/
theorem wholeSeconds_examples :
    wholeSeconds 0 = 0 ∧ wholeSeconds 999999999 = 0 ∧ wholeSeconds 1000000000 = 1 ∧
    wholeSeconds 5500000000 = 5 ∧ wholeSeconds 10999999999 = 10 ∧
    wholeSeconds 16777215999999999 = 16777215 ∧
    wholeSeconds 16777216999999999 = 16777217 := by
  decide

/-- The rounding of `roundHalfEven`: down below the half, up above it, and to
the even neighbour at the half. -/
theorem roundHalfEven_examples :
    roundHalfEven 9 4 = 2 ∧ roundHalfEven 11 4 = 3 ∧ roundHalfEven 5 2 = 2 ∧
    roundHalfEven 7 2 = 4 ∧ roundHalfEven 8 2 = 4 := by
  decide

/-- C8: a non-premium user with `TimeUsed = 0` whose first request ran 5.5 s
runs a second request of 5.5 s.  The processing time adds up to 11 s, above
10 s, yet the counter holds 5 + 5 = 10 and `HandleRequest` returns true. -/
theorem handleRequest_true_above_ten_seconds :
    5500000000 + 5500000000 > 10 * 1000000000 ∧
    (userAfter { ID := 1, IsPremium := false, TimeUsed := 0 } [5500000000]).TimeUsed = 5 ∧
    (HandleRequest 5500000000
      (userAfter { ID := 1, IsPremium := false, TimeUsed := 0 } [5500000000])).2.TimeUsed
        = 10 ∧
    (HandleRequest 5500000000
      (userAfter { ID := 1, IsPremium := false, TimeUsed := 0 } [5500000000])).1 = true := by
  decide

/-- Eleven runs of 0.999999999 s by a non-premium user, 10.999999989 s of
processing in all: every run counts 0 whole seconds and the eleventh
`HandleRequest` still returns true with `TimeUsed = 0`. -/
theorem handleRequest_subsecond_runs :
    11 * 999999999 > 10 * 1000000000 ∧
    HandleRequest 999999999
      (userAfter { ID := 1, IsPremium := false, TimeUsed := 0 }
        (List.replicate 10 999999999)) =
      (true, { ID := 1, IsPremium := false, TimeUsed := 0 }) := by
  decide

/-- What `HandleRequest` computes for a user starting with `TimeUsed = 0`: true
for a premium user; for a non-premium user false exactly when the
`wholeSeconds` of all runs so far, the current one included, added up modulo
`2 ^ 64`, exceed 10. -/
theorem handleRequest_result (u : User) (ds : List Nat) (d : Nat) (h0 : u.TimeUsed = 0) :
    (u.IsPremium = true → (HandleRequest d (userAfter u ds)).1 = true) ∧
    (u.IsPremium = false →
      ((HandleRequest d (userAfter u ds)).1 = false ↔
        ((ds ++ [d]).map wholeSeconds).sum % 2 ^ 64 > 10) ∧
      ((HandleRequest d (userAfter u ds)).1 = true ↔
        ((ds ++ [d]).map wholeSeconds).sum % 2 ^ 64 ≤ 10)) := by
  have hp := userAfter_isPremium u ds
  have ht := userAfter_timeUsed u ds
  rw [h0, Nat.zero_add] at ht
  have hsum : ((ds ++ [d]).map wholeSeconds).sum % 2 ^ 64 =
      ((userAfter u ds).TimeUsed + wholeSeconds d) % 2 ^ 64 := by
    rw [List.map_append, List.sum_append, List.map_singleton, List.sum_singleton]
    omega
  rw [hsum, HandleRequest_fst, hp]
  constructor
  · intro hprem
    simp [hprem]
  · intro hprem
    rw [hprem]
    simp

end LimitServiceTime
